import Mathlib

/-!
Verification development for the volar language-service core
(`packages/vscode-vue-languageservice/src/sourceFile.ts` plus the command
handler source). Positions are modelled by document byte offsets (the
source's `positionAt`/`offsetAt` conversions between offsets and
line/character pairs are bijective, so nothing is lost). Text is modelled
as `List Char` so that everything evaluates inside the kernel.
-/

namespace Volar

/-- Byte-offset range in a document; `endPos` models the source's `end`
field (a Lean keyword). -/
structure TextRange where
  start : Nat
  endPos : Nat
deriving DecidableEq, Repr

/-- LSP diagnostic as used by `sourceFile.ts`: a range, a message, an
optional severity, an optional code/source, and diagnostic tags
(`DiagnosticTag.Unnecessary = 1`). -/
structure Diagnostic where
  range : TextRange
  message : String
  severity : Option Nat
  code : Option Nat := none
  source : Option String := none
  tags : List Nat := []
deriving DecidableEq, Repr

/-- Numeric value of `DiagnosticTag.Unnecessary` in the LSP protocol. -/
def diagnosticTagUnnecessary : Nat := 1

/-- Capability set carried by a TS source-map segment
(`data.capabilities` in `sourceFile.ts`). -/
structure TsMappingCapabilities where
  basic : Bool := false
  diagnostic : Bool := false
  completion : Bool := false
  rename : Bool := false
  definition : Bool := false
deriving DecidableEq, Repr

/-- Segment data of a TS source map. -/
structure TsMappingData where
  capabilities : TsMappingCapabilities
deriving DecidableEq, Repr

/-- Segment data of a teleport map (`sourceFile.ts` reads only the
`isAdditionalReference` flag from it). -/
structure TeleportMappingData where
  isAdditionalReference : Bool := false
deriving DecidableEq, Repr

/-- One source-map segment: a source-side range, a mapped-side range, and
the segment data (capabilities and flags). -/
structure Mapping (D : Type) where
  data : D
  sourceRange : TextRange
  mappedRange : TextRange
deriving DecidableEq, Repr

/-- Bidirectional source map between the original document and one
generated (mapped) document. -/
structure SourceMap (D : Type) where
  mappedDocumentUri : String
  mappings : List (Mapping D)
deriving DecidableEq, Repr

/-- Result of a source-map range query: the translated range together with
the data of the segment that produced it. -/
structure MappedRangeResult (D : Type) where
  start : Nat
  endPos : Nat
  data : D
deriving DecidableEq, Repr

/-- Modelled from the spec: the query surface of the Source Map lives in
`utils/sourceMaps`, which is not among these sources; spec §3 describes the
queries as exact-match-or-containment lookups (`mappedRange →
sourceRanges[]` with point variants) whose results carry the segment's
data. A mapped-side range contained in a segment's mapped range is
translated by the offset of that segment's source range. -/
def SourceMap.getSourceRange (sm : SourceMap D) (start endPos : Nat) :
    Option (MappedRangeResult D) :=
  (sm.mappings.find? (fun m =>
    decide (m.mappedRange.start ≤ start ∧ endPos ≤ m.mappedRange.endPos))).map
    (fun m =>
      { start := m.sourceRange.start + (start - m.mappedRange.start)
        endPos := m.sourceRange.start + (endPos - m.mappedRange.start)
        data := m.data })

/-- Modelled from the spec: the dual query (`sourceRange → mappedRanges[]`,
spec §3), returning every segment whose source range contains the queried
range, with the segment's data attached. -/
def SourceMap.getMappedRanges (sm : SourceMap D) (start endPos : Nat) :
    List (MappedRangeResult D) :=
  sm.mappings.filterMap (fun m =>
    if m.sourceRange.start ≤ start ∧ endPos ≤ m.sourceRange.endPos then
      some
        { start := m.mappedRange.start + (start - m.sourceRange.start)
          endPos := m.mappedRange.start + (endPos - m.sourceRange.start)
          data := m.data }
    else none)

/-- Translation of `toSourceDiags` (`sourceFile.ts` lines 777-795): each
error is remapped through every source map whose mapped document matches
the given uri; a full-range lookup that succeeds yields the error at the
source range, with no capability condition and no fallback. -/
def toSourceDiags (errors : List Diagnostic) (virtualScriptUri : String)
    (sourceMaps : List (SourceMap D)) : List Diagnostic :=
  errors.flatMap (fun error =>
    sourceMaps.filterMap (fun sourceMap =>
      if sourceMap.mappedDocumentUri = virtualScriptUri then
        (sourceMap.getSourceRange error.range.start error.range.endPos).map
          (fun vueRange => { error with range := ⟨vueRange.start, vueRange.endPos⟩ })
      else none))

/-- First loop of `toTsSourceDiags` (`sourceFile.ts` lines 799-811): the
full-range lookup, kept only when the covering segment carries the
`diagnostic` capability. -/
def toTsSourceDiagsFull (error : Diagnostic) (virtualScriptUri : String)
    (sourceMaps : List (SourceMap TsMappingData)) : List Diagnostic :=
  sourceMaps.filterMap (fun sourceMap =>
    if sourceMap.mappedDocumentUri = virtualScriptUri then
      match sourceMap.getSourceRange error.range.start error.range.endPos with
      | none => none
      | some vueRange =>
        if vueRange.data.capabilities.diagnostic then
          some { error with range := ⟨vueRange.start, vueRange.endPos⟩ }
        else none
    else none)

/-- Second loop of `toTsSourceDiags` (`sourceFile.ts` lines 812-830, the
"patching for ref sugar" fallback): separate point lookups for the range's
start and end, each required to land in a `diagnostic`-capable segment, and
stitched into the range between the two translated start points. -/
def toTsSourceDiagsPatched (error : Diagnostic) (virtualScriptUri : String)
    (sourceMaps : List (SourceMap TsMappingData)) : List Diagnostic :=
  sourceMaps.filterMap (fun sourceMap =>
    if sourceMap.mappedDocumentUri = virtualScriptUri then
      match sourceMap.getSourceRange error.range.start error.range.start with
      | none => none
      | some vueStartRange =>
        if vueStartRange.data.capabilities.diagnostic then
          match sourceMap.getSourceRange error.range.endPos error.range.endPos with
          | none => none
          | some vueEndRange =>
            if vueEndRange.data.capabilities.diagnostic then
              some { error with range := ⟨vueStartRange.start, vueEndRange.start⟩ }
            else none
        else none
    else none)

/-- Translation of `toTsSourceDiags` (`sourceFile.ts` lines 796-833): for
each error the full-range loop runs over all maps; only when it produced
nothing (`found` stays false) does the point-lookup fallback run. -/
def toTsSourceDiags (errors : List Diagnostic) (virtualScriptUri : String)
    (sourceMaps : List (SourceMap TsMappingData)) : List Diagnostic :=
  errors.flatMap (fun error =>
    let full := toTsSourceDiagsFull error virtualScriptUri sourceMaps
    if full.isEmpty then toTsSourceDiagsPatched error virtualScriptUri sourceMaps
    else full)

/-- Key by which diagnostics are collapsed: the `{range, message, severity}`
triple (spec §4.4 "Deduplication"). -/
def dedupeKey (d : Diagnostic) : TextRange × String × Option Nat :=
  (d.range, d.message, d.severity)

/-- Helper for `dedupeWithDiagnostics`: keeps the first diagnostic seen for
each key, carrying the set of keys already emitted. -/
def dedupeWithDiagnosticsGo : List Diagnostic → List (TextRange × String × Option Nat) →
    List Diagnostic
  | [], _ => []
  | d :: rest, seen =>
    if dedupeKey d ∈ seen then dedupeWithDiagnosticsGo rest seen
    else d :: dedupeWithDiagnosticsGo rest (dedupeKey d :: seen)

/-- Modelled from the spec: `dedupe.withDiagnostics` lives in
`utils/dedupe`, which is not among these sources; spec §4.4 says
"diagnostics that remap to an identical `{range, message, severity}` triple
are collapsed". The first occurrence of each key is kept. -/
def dedupeWithDiagnostics (l : List Diagnostic) : List Diagnostic :=
  dedupeWithDiagnosticsGo l []

/-- One diagnostic-producer record, the `[Ref<Diagnostic[]>, Diagnostic[],
number]` tuple of `useDiagnostics`: the reactive computed (its current
value during this run), the memoized last result (`diag[1]`), and the last
measured cost in milliseconds (`diag[2]`). -/
structure DiagProducerState where
  value : List Diagnostic
  lastResult : List Diagnostic
  lastCost : Nat
deriving DecidableEq, Repr

/-- Executing one producer (`diag[1] = diag[0].value; diag[2] = elapsed`). -/
def diagStep (p : DiagProducerState) (cost : Nat) : DiagProducerState :=
  { p with lastResult := p.value, lastCost := cost }

/-- Cost order used by `templateTs.sort((a, b) => a[2] - b[2])` and
`scriptTs.sort(...)` in `useDiagnostics`. -/
def costLe (a b : DiagProducerState) : Prop := a.lastCost ≤ b.lastCost

instance : DecidableRel costLe := fun a b =>
  inferInstanceAs (Decidable (a.lastCost ≤ b.lastCost))

instance : IsTotal DiagProducerState costLe :=
  ⟨fun a b => Nat.le_total a.lastCost b.lastCost⟩

instance : IsTrans DiagProducerState costLe :=
  ⟨fun _ _ _ => Nat.le_trans⟩

/-- Stable sort of a producer family by its previous run's measured cost. -/
def sortByCost (ps : List DiagProducerState) : List DiagProducerState :=
  ps.insertionSort costLe

/-- Translation of the scheduling block of `useDiagnostics` (`sourceFile.ts`
lines 458-492): `all` starts as the fixed non-TS group; after the two TS
families are re-sorted by cost, the family of the most recently changed
section is appended first, the other family is appended too when
`withSideEffect` holds and otherwise goes to `keep`. Returns `(all, keep)`. -/
def scheduleProducers (nonTs scriptTs templateTs : List DiagProducerState)
    (scriptChanged scriptSetupChanged templateChanged withSideEffect : Bool) :
    List DiagProducerState × List DiagProducerState :=
  let templateTs := sortByCost templateTs
  let scriptTs := sortByCost scriptTs
  if scriptChanged || scriptSetupChanged then
    if withSideEffect then (nonTs ++ scriptTs ++ templateTs, [])
    else (nonTs ++ scriptTs, templateTs)
  else if templateChanged then
    if withSideEffect then (nonTs ++ templateTs ++ scriptTs, [])
    else (nonTs ++ templateTs, scriptTs)
  else
    if withSideEffect then (nonTs ++ scriptTs ++ templateTs, [])
    else (nonTs, scriptTs ++ templateTs)

/-- Translation of the producer loop of `useDiagnostics` (`sourceFile.ts`
lines 494-501). `done` holds the already-executed producers of `all` (with
their refreshed `lastResult`), the second argument lists the producers not
yet reached, `isCancel i` is the value of the `i`-th `await isCancel?.()`
poll, and `measure i` the wall time the `i`-th producer takes. After every
producer, the concatenated `lastResult`s of the whole (partially refreshed)
`all` array plus the held `keep` array are deduplicated and delivered;
returns the list of delivered batches plus the final `all` array. -/
def runProducers : List DiagProducerState → List DiagProducerState →
    List DiagProducerState → (Nat → Bool) → (Nat → Nat) → Nat →
    List (List Diagnostic) × List DiagProducerState
  | done, [], _keep, _isCancel, _measure, _i => ([], done)
  | done, p :: rest, keep, isCancel, measure, i =>
    if isCancel i then ([], done ++ p :: rest)
    else
      let p' := diagStep p (measure i)
      let batch := dedupeWithDiagnostics
        ((((done ++ p' :: rest) ++ keep).map (fun q => q.lastResult)).flatten)
      let r := runProducers (done ++ [p']) rest keep isCancel measure (i + 1)
      (batch :: r.1, r.2)

/-- One full diagnostics run: schedule the producer groups from the
last-update change flags, then execute the `all` list in order with the
`keep` list held. -/
def diagnosticsRun (nonTs scriptTs templateTs : List DiagProducerState)
    (scriptChanged scriptSetupChanged templateChanged withSideEffect : Bool)
    (isCancel : Nat → Bool) (measure : Nat → Nat) :
    List (List Diagnostic) × List DiagProducerState :=
  let s := scheduleProducers nonTs scriptTs templateTs
    scriptChanged scriptSetupChanged templateChanged withSideEffect
  runProducers [] s.1 s.2 isCancel measure 0

/-- Number of producers actually executed by the loop: polls start at index
`i`, `n` producers remain. -/
def executedCount (isCancel : Nat → Bool) : Nat → Nat → Nat
  | _i, 0 => 0
  | i, n + 1 => if isCancel i then 0 else executedCount isCancel (i + 1) n + 1

/-- State of the producer list after the first `j` producers have executed,
polls starting at index `i`. -/
def steppedSeg (measure : Nat → Nat) : List DiagProducerState → Nat → Nat →
    List DiagProducerState
  | [], _i, _j => []
  | p :: rest, i, j + 1 => diagStep p (measure i) :: steppedSeg measure rest (i + 1) j
  | p :: rest, _i, 0 => p :: rest

/-- Completion item as consumed by `updateTemplateScript`: only `data.name`
is read from it. -/
structure CompletionItemData where
  name : String
deriving DecidableEq, Repr

/-- The `ITemplateScriptData` reactive snapshot owned by the source file. -/
structure TemplateScriptData where
  projectVersion : Option String
  context : List String
  components : List String
  props : List String
  setupReturns : List String
  htmlElements : List String
  componentItems : List CompletionItemData
  htmlElementItems : List CompletionItemData
deriving DecidableEq, Repr

/-- Translation of the inner `eqSet` of `updateTemplateScript`
(`sourceFile.ts` lines 425-429) applied to `new Set(as)` and `new Set(bs)`:
the JS sets have equal size iff the deduplicated lists have equal length,
and iterating the first set checks membership of each element in the
second. -/
def eqSet (as bs : List String) : Bool :=
  decide (as.dedup.length = bs.dedup.length) && as.all (fun a => bs.contains a)

/-- Result of `updateTemplateScript`: the snapshot afterwards, the returned
boolean, and whether `virtualTemplateGen.update()` was reached. -/
structure UpdateTemplateScriptResult where
  data : TemplateScriptData
  changed : Bool
  regenerated : Bool
deriving DecidableEq, Repr

/-- Translation of `updateTemplateScript` (`sourceFile.ts` lines 386-430).
The five sentinel-offset completion queries hit the external script engine,
so their results (`context`, `components`, `props`, `setupReturns`,
`globalEls`) are inputs here; a sentinel string missing from the generated
main document yields the empty list, which the inputs also cover. When the
stored project version equals the host's, nothing happens and `false` is
returned; otherwise the version token is stored first, and if every
recomputed name list is set-equal to the stored one the function still
returns `false` without touching the name sets; otherwise all name sets and
item lists are replaced, the template script is regenerated, and `true` is
returned. -/
def updateTemplateScript (data : TemplateScriptData)
    (hostProjectVersion : Option String)
    (context components props setupReturns globalEls : List CompletionItemData) :
    UpdateTemplateScriptResult :=
  if data.projectVersion = hostProjectVersion then
    { data := data, changed := false, regenerated := false }
  else
    let data := { data with projectVersion := hostProjectVersion }
    let contextNames := context.map (fun entry => entry.name)
    let componentNames := components.map (fun entry => entry.name)
    let propNames := props.map (fun entry => entry.name)
    let setupReturnNames := setupReturns.map (fun entry => entry.name)
    let htmlElementNames := globalEls.map (fun entry => entry.name)
    if eqSet contextNames data.context
        && eqSet componentNames data.components
        && eqSet propNames data.props
        && eqSet setupReturnNames data.setupReturns
        && eqSet htmlElementNames data.htmlElements then
      { data := data, changed := false, regenerated := false }
    else
      { data :=
          { data with
            context := contextNames
            components := componentNames
            props := propNames
            setupReturns := setupReturnNames
            htmlElements := htmlElementNames
            componentItems := components
            htmlElementItems := globalEls }
        changed := true
        regenerated := true }

/-- One generated virtual document: its text and its version counter. -/
structure IVirtualDocument where
  text : String
  version : Nat
deriving DecidableEq, Repr

/-- Modelled from the spec: the virtual-document generators live in
`virtuals/`, which is not among these sources; spec §3 and §4.3 say each
generator short-circuits on unchanged inputs and its document's "version
increments only when generated text actually changes (content-equality
gate)", while absent inputs yield `{document: undefined}`. -/
def regenerate (old : Option IVirtualDocument) (newText : Option String) :
    Option IVirtualDocument :=
  match newText, old with
  | none, _ => none
  | some t, some d => if t = d.text then some d else some { text := t, version := d.version + 1 }
  | some t, none => some { text := t, version := 0 }

/-- Result of `update(newVueDocument)`: the two generated documents
afterwards and the `{scriptUpdated, templateScriptUpdated}` flags. -/
structure SourceFileUpdateResult where
  scriptDoc : Option IVirtualDocument
  templateScriptDoc : Option IVirtualDocument
  scriptUpdated : Bool
  templateScriptUpdated : Bool
deriving DecidableEq, Repr

/-- Translation of the version-comparison skeleton of `update`
(`sourceFile.ts` lines 192-249): the versions of the generated script
document and the generated template-script document are captured before
the section update, the generators re-run (through the spec-modelled
content-equality gate, on whatever text they now generate), and each
returned flag is the disequality of the corresponding version before and
after. -/
def sourceFileUpdate (scriptDocBefore templateScriptDocBefore : Option IVirtualDocument)
    (newScriptGenText newTemplateScriptGenText : Option String) :
    SourceFileUpdateResult :=
  let versionsBeforeUpdate :=
    (scriptDocBefore.map (fun d => d.version),
     templateScriptDocBefore.map (fun d => d.version))
  let scriptDocAfter := regenerate scriptDocBefore newScriptGenText
  let templateScriptDocAfter := regenerate templateScriptDocBefore newTemplateScriptGenText
  let versionsAfterUpdate :=
    (scriptDocAfter.map (fun d => d.version),
     templateScriptDocAfter.map (fun d => d.version))
  { scriptDoc := scriptDocAfter
    templateScriptDoc := templateScriptDocAfter
    scriptUpdated := versionsBeforeUpdate.1 != versionsAfterUpdate.1
    templateScriptUpdated := versionsBeforeUpdate.2 != versionsAfterUpdate.2 }

/-- One SFC block as seen by the ignore-marker scan of `update`: its start
offset (`loc.start.offset`) and its `__VLS_ignore` attribute. -/
structure SfcBlock where
  start : Nat
  ignore : Bool
deriving DecidableEq, Repr

/-- One top-level comment node from the htmlparser2 pass over the source:
its start index and its text. -/
structure CommentNode where
  start : Nat
  text : List Char
deriving DecidableEq, Repr

/-- Translation of `text.indexOf('@vue-ignore') >= 0`: the marker occurs as
a contiguous substring of the comment's text. -/
def hasVueIgnore (text : List Char) : Bool :=
  decide ("@vue-ignore".toList <:+: text)

/-- Order used by `.sort((a, b) => a.loc.start.offset - b.loc.start.offset)`
on index-tagged blocks. -/
def enumBlockLe (a b : Nat × SfcBlock) : Prop := a.2.start ≤ b.2.start

instance : DecidableRel enumBlockLe := fun a b =>
  inferInstanceAs (Decidable (a.2.start ≤ b.2.start))

instance : IsTotal (Nat × SfcBlock) enumBlockLe :=
  ⟨fun a b => Nat.le_total a.2.start b.2.start⟩

instance : IsTrans (Nat × SfcBlock) enumBlockLe :=
  ⟨fun _ _ _ => Nat.le_trans⟩

/-- Setting `attrs['__VLS_ignore'] = true` on the block at index `i` (the
JS code mutates the block object in place; blocks are identified here by
their list position). -/
def setIgnoreAt : List SfcBlock → Nat → List SfcBlock
  | [], _ => []
  | b :: bs, 0 => { b with ignore := true } :: bs
  | b :: bs, i + 1 => b :: setIgnoreAt bs i

/-- Translation of the `@vue-ignore` scan body of `update` (`sourceFile.ts`
lines 211-228) for one comment node: if the comment text contains the
marker, the blocks starting strictly after the comment's start index are
collected, sorted ascending by start offset, and the first of them — if
any — is tagged with the ignore attribute. -/
def applyIgnoreComment (blocks : List SfcBlock) (c : CommentNode) : List SfcBlock :=
  if hasVueIgnore c.text then
    match ((blocks.enum.filter (fun p => decide (c.start < p.2.start))).insertionSort
        enumBlockLe).head? with
    | some p => setIgnoreAt blocks p.1
    | none => blocks
  else blocks

/-- Truthiness of a `boolean | undefined` JS value. -/
def truthy (b : Option Bool) : Bool := b.getD false

/-- Value of `descriptor.script?.ignore || descriptor.scriptSetup?.ignore`
(the JS `||` keeps the first truthy operand, else the second operand). -/
def orTruthy (a b : Option Bool) : Option Bool := if truthy a then a else b

/-- Translation of the result computed of `useTemplateValidation`
(`sourceFile.ts` lines 576-583): empty when the template section is
ignored or there is no raw template document; otherwise the html compile
errors and the pug compile errors (both produced by the external compiler
passes, taken as inputs) remapped through the raw html/pug source maps
with `toSourceDiags`. -/
def useTemplateValidation (ignore : Option Bool) (templateRawDocUri : Option String)
    (htmlErrors pugErrors : List Diagnostic)
    (htmlSourceMaps pugSourceMaps : List (SourceMap D)) : List Diagnostic :=
  if truthy ignore then []
  else
    match templateRawDocUri with
    | none => []
    | some uri =>
      toSourceDiags htmlErrors uri htmlSourceMaps
        ++ toSourceDiags pugErrors uri pugSourceMaps

/-- Translation of the result computed of `useStylesValidation`
(`sourceFile.ts` lines 644-663): each style document is skipped when
ignored, when no css language service exists for its language, or when it
has no stylesheet; the remaining documents' validation errors (external,
taken as inputs) are remapped through the style source maps. -/
structure StyleDocEntry where
  uri : String
  serviceAvailable : Bool
  hasStylesheet : Bool
  ignore : Option Bool
  errs : List Diagnostic
deriving Repr

def useStylesValidation (documents : List StyleDocEntry)
    (styleSourceMaps : List (SourceMap D)) : List Diagnostic :=
  let errors := documents.filterMap (fun d =>
    if truthy d.ignore then none
    else if d.serviceAvailable && d.hasStylesheet then some (d.uri, d.errs)
    else none)
  (errors.map (fun p => toSourceDiags p.2 p.1 styleSourceMaps)).flatten

/-- Message text of the missing-script-block diagnostic. -/
def scriptExistMessage : String :=
  "services are not working for this script block because virtual file is not found in TS server, maybe try to add lang=\"ts\" to <script> or add `\"allowJs\": true` to tsconfig.json"

/-- Translation of `useScriptExistValidation` (`sourceFile.ts` lines
664-689): empty when the script sections are ignored; otherwise, when the
generated script document exists but the TS service does not know it, one
warning per present script/script-setup section, ranged over the section. -/
def useScriptExistValidation (ignore : Option Bool) (scriptGenDocExists : Bool)
    (docKnownToTs : Bool) (script scriptSetup : Option TextRange) : List Diagnostic :=
  if truthy ignore then []
  else if scriptGenDocExists && !docKnownToTs then
    ([script, scriptSetup].filterMap id).map (fun loc =>
      { range := loc
        message := scriptExistMessage
        severity := some 2
        source := some "volar" })
  else []

/-- Translation of the result computed of `useScriptValidation`
(`sourceFile.ts` lines 707-717): empty when the script sections are
ignored or the validated document is absent; otherwise the raw TS
diagnostics (external, chosen by the mode flag, taken as input) are
remapped with `toTsSourceDiags`, and for the unused-only producer filtered
to diagnostics tagged `Unnecessary`. -/
def useScriptValidation (ignore : Option Bool) (document : Option String)
    (rawErrors : List Diagnostic) (tsSourceMaps : List (SourceMap TsMappingData))
    (onlyUnusedCheck : Bool) : List Diagnostic :=
  if truthy ignore then []
  else
    match document with
    | none => []
    | some uri =>
      let result := toTsSourceDiags rawErrors uri tsSourceMaps
      if onlyUnusedCheck then
        result.filter (fun error => error.tags.contains diagnosticTagUnnecessary)
      else result

/-- One definition-lookup result from the TS service, as read by the
teleport relocation (`targetUri` and `targetSelectionRange`). -/
structure DefinitionLink where
  targetUri : String
  targetSelectionRange : TextRange
deriving DecidableEq, Repr

/-- Translation of the `errors_2` computed of `useTemplateScriptValidation`
(`sourceFile.ts` lines 736-760): for each template-script-layer diagnostic
whose span text is one of the setup-returned names, every teleport segment
containing the diagnostic's range — except those flagged
`isAdditionalReference` — is followed, the TS definition lookup runs at the
teleported start position, and for each definition landing in the generated
script document the diagnostic is re-emitted at the definition's selection
range. -/
def templateScriptTeleportDiags (errors_1 : List Diagnostic)
    (templateDocGetText : TextRange → String) (setupReturns : List String)
    (teleport : SourceMap TeleportMappingData)
    (findDefinition : Nat → List DefinitionLink) (scriptDocUri : String) :
    List Diagnostic :=
  errors_1.flatMap (fun diag =>
    let spanText := templateDocGetText diag.range
    if setupReturns.contains spanText then
      (teleport.getMappedRanges diag.range.start diag.range.endPos).flatMap
        (fun propRight =>
          if propRight.data.isAdditionalReference then []
          else
            (findDefinition propRight.start).filterMap (fun definition =>
              if definition.targetUri = scriptDocUri then
                some { diag with range := definition.targetSelectionRange }
              else none))
    else [])

/-- Translation of the result computed of `useTemplateScriptValidation`
(`sourceFile.ts` lines 719-776): empty when the template section is
ignored; otherwise the template-script-layer diagnostics remapped through
the TS source maps, followed by the teleport-relocated diagnostics (built
only when the template-script document, the teleport map and the generated
script document all exist) remapped likewise against the script document. -/
def useTemplateScriptValidation (ignore : Option Bool)
    (templateGenDocUri scriptGenDocUri : Option String)
    (errors_1 : List Diagnostic) (templateDocGetText : TextRange → String)
    (setupReturns : List String)
    (teleport : Option (SourceMap TeleportMappingData))
    (findDefinition : Nat → List DefinitionLink)
    (tsSourceMaps : List (SourceMap TsMappingData)) : List Diagnostic :=
  if truthy ignore then []
  else
    (match templateGenDocUri with
      | none => []
      | some tUri => toTsSourceDiags errors_1 tUri tsSourceMaps)
    ++ (match scriptGenDocUri with
      | none => []
      | some sUri =>
        toTsSourceDiags
          (match templateGenDocUri, teleport with
            | some _, some tp =>
              templateScriptTeleportDiags errors_1 templateDocGetText
                setupReturns tp findDefinition sUri
            | _, _ => [])
          sUri tsSourceMaps)

/-- One workspace text edit, with the range as document offsets. -/
structure TextEditOff where
  start : Nat
  endPos : Nat
  newText : List Char
deriving DecidableEq, Repr

/-- Slice of a document text: the characters in `[a, b)`. This is the
offset form of `document.getText(range)` / `text.substring(a, b)`. -/
def slice (t : List Char) (a b : Nat) : List Char := (t.drop a).take (b - a)

/-- Order of workspace edits by range start, used to apply an LSP edit
batch against the original document. -/
def editLe (a b : TextEditOff) : Prop := a.start ≤ b.start

instance : DecidableRel editLe := fun a b =>
  inferInstanceAs (Decidable (a.start ≤ b.start))

instance : IsTotal TextEditOff editLe := ⟨fun a b => Nat.le_total a.start b.start⟩

instance : IsTrans TextEditOff editLe := ⟨fun _ _ _ => Nat.le_trans⟩

/-- Applying an ascending, non-overlapping edit list: keep the text from
`pos` up to the next edit's start, splice in its replacement, continue
after its end. -/
def applySortedEdits (text : List Char) : List TextEditOff → Nat → List Char
  | [], pos => text.drop pos
  | e :: rest, pos =>
    (text.drop pos).take (e.start - pos) ++ e.newText
      ++ applySortedEdits text rest e.endPos

/-- LSP semantics of `workspace.applyEdit` for one document: all edits are
interpreted against the original text, sorted (stably) by start position,
and spliced in. -/
def applyTextEdits (text : List Char) (edits : List TextEditOff) : List Char :=
  applySortedEdits text (edits.insertionSort editLe) 0

/-- Modelled from the spec: the script-setup parse data (`genData.data`)
consumed by the SWITCH_REF_SUGAR command comes from the script-setup
generator in `virtuals/script`, which is not among these sources; spec §4.2
says the generator "desugars labeled statements into explicit wrapped-value
construction and records, per desugared binding, the set of usage sites
needing a trailing accessor suffix versus a raw-sigil usage". A node range
`[start, endPos)` is relative to the script-setup content. -/
structure AstNodeRange where
  start : Nat
  endPos : Nat
deriving DecidableEq, Repr

/-- Modelled from the spec: the right-hand side of one labeled declaration,
with the flag telling whether it is already a wrapped-value (computed)
call, in which case the desugar does not wrap it again. -/
structure LabelRight where
  start : Nat
  endPos : Nat
  isComputedCall : Bool
deriving DecidableEq, Repr

/-- Modelled from the spec: one label-based auto-unwrap declaration as
recorded by the script-setup generator — the label node (`endPos` is the
exclusive end of the label identifier, so `endPos + 1` covers the colon),
the right-hand side, and the declared variable nodes. -/
structure RefSugarLabel where
  label : AstNodeRange
  right : LabelRight
  vars : List AstNodeRange
deriving DecidableEq, Repr

/-- Modelled from the spec: one `const x = ref(...)` declaration as
recorded by the script-setup generator for the resugar direction — the
whole declaration's range, the bound name, the expression inside the
`ref(...)` call, and the declared variable nodes. -/
structure RefCall where
  start : Nat
  endPos : Nat
  left : AstNodeRange
  rightExpression : AstNodeRange
  vars : List AstNodeRange
deriving DecidableEq, Repr

/-- Reference lookup result: the uri of the document holding the reference
and its range, as returned by the find-references feature. -/
structure ReferenceLoc where
  uri : String
  range : TextRange
deriving DecidableEq, Repr

/-- Translation of the "unuse ref sugar" branch of the SWITCH_REF_SUGAR
command (`src/unnamed/part_000` lines 34-101): per label, the label plus
colon is replaced by `const`; unless the right side is already a computed
call it is wrapped in `ref(` … `)`; every same-document reference to a
declared variable that lies inside the script-setup section — other than
the declaration itself — is rewritten to the bare name when it currently
has the `$` sigil and to the name plus `.value` otherwise. The trailing
auto-import edits come from an external completion-resolve call and are
passed in (`importEdits`); they are empty when `ref` is already imported. -/
def unuseRefSugarEdits (docText : List Char) (setupStart setupEnd : Nat)
    (labels : List RefSugarLabel) (findRefs : Nat → List ReferenceLoc)
    (docUri : String) (importEdits : List TextEditOff) : List TextEditOff :=
  (labels.flatMap (fun label =>
    [⟨setupStart + label.label.start, setupStart + label.label.endPos + 1,
      "const".toList⟩]
    ++ (if label.right.isComputedCall then []
      else
        [⟨setupStart + label.right.start, setupStart + label.right.start,
          "ref(".toList⟩,
         ⟨setupStart + label.right.endPos, setupStart + label.right.endPos,
          ")".toList⟩])
    ++ label.vars.flatMap (fun v =>
      let varStart := setupStart + v.start
      let varEnd := setupStart + v.endPos
      let varText := slice docText varStart varEnd
      (findRefs varStart).filterMap (fun reference =>
        if reference.uri = docUri then
          if reference.range.start = varStart ∧ reference.range.endPos = varEnd then
            none
          else if setupStart ≤ reference.range.start
              ∧ reference.range.endPos ≤ setupEnd then
            if slice docText reference.range.start reference.range.endPos
                = '$' :: varText then
              some ⟨reference.range.start, reference.range.endPos, varText⟩
            else
              some ⟨reference.range.start, reference.range.endPos,
                varText ++ ".value".toList⟩
          else none
        else none))))
  ++ importEdits

/-- Translation of the "use ref sugar" branch of the SWITCH_REF_SUGAR
command (`src/unnamed/part_000` lines 102-148): per recorded `ref(...)`
declaration, the whole declaration is replaced by
`ref: <left> = <rightExpression>`; every same-document reference to a
declared variable inside the script-setup section — other than the
declaration itself — swallows a directly following `.value` accessor, and
otherwise gains the `$` sigil. -/
def useRefSugarEdits (docText : List Char) (setupStart setupEnd : Nat)
    (refCalls : List RefCall) (findRefs : Nat → List ReferenceLoc)
    (docUri : String) : List TextEditOff :=
  refCalls.flatMap (fun refCall =>
    let left := slice docText (setupStart + refCall.left.start)
      (setupStart + refCall.left.endPos)
    let right := slice docText (setupStart + refCall.rightExpression.start)
      (setupStart + refCall.rightExpression.endPos)
    [⟨setupStart + refCall.start, setupStart + refCall.endPos,
      "ref: ".toList ++ left ++ " = ".toList ++ right⟩]
    ++ refCall.vars.flatMap (fun v =>
      let varStart := setupStart + v.start
      let varEnd := setupStart + v.endPos
      let varText := slice docText varStart varEnd
      (findRefs varStart).filterMap (fun reference =>
        if reference.uri = docUri then
          if reference.range.start = varStart ∧ reference.range.endPos = varEnd then
            none
          else if setupStart ≤ reference.range.start
              ∧ reference.range.endPos ≤ setupEnd then
            if slice docText reference.range.endPos (reference.range.endPos + 6)
                = ".value".toList then
              some ⟨reference.range.start, reference.range.endPos + 6, varText⟩
            else
              some ⟨reference.range.start, reference.range.endPos,
                '$' :: varText⟩
          else none
        else none)))

/-- Uri of the open `.vue` document in the ref-sugar scenario. -/
def vueDocUri : String := "file.vue"

/-- The ref-sugar scenario source: a script-setup section whose content is
`ref: x = ref(1)\nfn(x)\nfn($x)\n` — one label-based auto-unwrap
declaration, one bare usage `x` and one sigil usage `$x`. The section
content starts at offset 14 and ends at offset 43. -/
def refSugarDoc0 : List Char :=
  "<script setup>ref: x = ref(1)\nfn(x)\nfn($x)\n</script>".toList

/-- Modelled from the spec: parse data of the labeled declaration of
`refSugarDoc0`, relative to the section content — label `ref` at `[0,3)`
(so the colon sits at offset 3), right-hand side `ref(1)` at `[9,15)` (not
a computed call, so the desugar wraps it), declared variable `x` at
`[5,6)`. -/
def refSugarLabel0 : RefSugarLabel :=
  { label := ⟨0, 3⟩, right := ⟨9, 15, false⟩, vars := [⟨5, 6⟩] }

/-- References of `x` in `refSugarDoc0` as the external find-references
feature reports them at the declaration's absolute offset 19: the
declaration itself, the bare usage at `[33,34)` and the sigil usage at
`[39,41)`. -/
def refSugarFindRefs0 : Nat → List ReferenceLoc := fun p =>
  if p = 19 then
    [⟨vueDocUri, ⟨19, 20⟩⟩, ⟨vueDocUri, ⟨33, 34⟩⟩, ⟨vueDocUri, ⟨39, 41⟩⟩]
  else []

/-- The document after the first toggle (desugar). -/
def refSugarDoc1 : List Char :=
  applyTextEdits refSugarDoc0
    (unuseRefSugarEdits refSugarDoc0 14 43 [refSugarLabel0] refSugarFindRefs0
      vueDocUri [])

/-- Modelled from the spec: parse data of the `const x = ref(ref(1))`
declaration of the desugared document, relative to the section content —
whole declaration `[0,21)`, bound name `x` at `[6,7)`, expression inside
the outer `ref(...)` call at `[14,20)`, declared variable `x` at `[6,7)`. -/
def refSugarCall1 : RefCall :=
  { start := 0, endPos := 21, left := ⟨6, 7⟩, rightExpression := ⟨14, 20⟩,
    vars := [⟨6, 7⟩] }

/-- References of `x` in the desugared document at the declaration's
absolute offset 20: the declaration itself, the `.value` usage at `[39,40)`
and the bare usage at `[51,52)`. -/
def refSugarFindRefs1 : Nat → List ReferenceLoc := fun p =>
  if p = 20 then
    [⟨vueDocUri, ⟨20, 21⟩⟩, ⟨vueDocUri, ⟨39, 40⟩⟩, ⟨vueDocUri, ⟨51, 52⟩⟩]
  else []

/-! ### Theorems -/

/-- A map remaps `error` to `d` through a full-range containment lookup in
a `diagnostic`-capable segment. -/
def fullRemapsTo (sourceMap : SourceMap TsMappingData) (uri : String)
    (error d : Diagnostic) : Prop :=
  sourceMap.mappedDocumentUri = uri ∧
  ∃ r, sourceMap.getSourceRange error.range.start error.range.endPos = some r ∧
    r.data.capabilities.diagnostic = true ∧
    d = { error with range := ⟨r.start, r.endPos⟩ }

/-- A map remaps `error` to `d` through the stitched point-lookup fallback,
both lookups landing in `diagnostic`-capable segments. -/
def stitchRemapsTo (sourceMap : SourceMap TsMappingData) (uri : String)
    (error d : Diagnostic) : Prop :=
  sourceMap.mappedDocumentUri = uri ∧
  ∃ rs re,
    sourceMap.getSourceRange error.range.start error.range.start = some rs ∧
    rs.data.capabilities.diagnostic = true ∧
    sourceMap.getSourceRange error.range.endPos error.range.endPos = some re ∧
    re.data.capabilities.diagnostic = true ∧
    d = { error with range := ⟨rs.start, re.start⟩ }

lemma mem_toTsSourceDiagsFull {error : Diagnostic} {uri : String}
    {sourceMaps : List (SourceMap TsMappingData)} {d : Diagnostic} :
    d ∈ toTsSourceDiagsFull error uri sourceMaps ↔
      ∃ sm ∈ sourceMaps, fullRemapsTo sm uri error d := by
  simp only [toTsSourceDiagsFull, List.mem_filterMap]
  constructor
  · rintro ⟨sm, hsm, hf⟩
    refine ⟨sm, hsm, ?_⟩
    by_cases huri : sm.mappedDocumentUri = uri
    · simp only [huri, if_true] at hf
      cases hr : sm.getSourceRange error.range.start error.range.endPos with
      | none => rw [hr] at hf; simp at hf
      | some r =>
        rw [hr] at hf
        by_cases hcap : r.data.capabilities.diagnostic
        · simp only [hcap, if_true, Option.some.injEq] at hf
          exact ⟨huri, r, hr, hcap, hf.symm⟩
        · simp [hcap] at hf
    · simp [huri] at hf
  · rintro ⟨sm, hsm, huri, r, hr, hcap, hd⟩
    exact ⟨sm, hsm, by simp [huri, hr, hcap, hd]⟩

lemma mem_toTsSourceDiagsPatched {error : Diagnostic} {uri : String}
    {sourceMaps : List (SourceMap TsMappingData)} {d : Diagnostic} :
    d ∈ toTsSourceDiagsPatched error uri sourceMaps ↔
      ∃ sm ∈ sourceMaps, stitchRemapsTo sm uri error d := by
  simp only [toTsSourceDiagsPatched, List.mem_filterMap]
  constructor
  · rintro ⟨sm, hsm, hf⟩
    refine ⟨sm, hsm, ?_⟩
    by_cases huri : sm.mappedDocumentUri = uri
    · simp only [huri, if_true] at hf
      cases hrs : sm.getSourceRange error.range.start error.range.start with
      | none => rw [hrs] at hf; simp at hf
      | some rs =>
        rw [hrs] at hf
        by_cases hcs : rs.data.capabilities.diagnostic
        · simp only [hcs, if_true] at hf
          cases hre : sm.getSourceRange error.range.endPos error.range.endPos with
          | none => rw [hre] at hf; simp at hf
          | some re =>
            rw [hre] at hf
            by_cases hce : re.data.capabilities.diagnostic
            · simp only [hce, if_true, Option.some.injEq] at hf
              exact ⟨huri, rs, re, hrs, hcs, hre, hce, hf.symm⟩
            · simp [hce] at hf
        · simp [hcs] at hf
    · simp [huri] at hf
  · rintro ⟨sm, hsm, huri, rs, re, hrs, hcs, hre, hce, hd⟩
    exact ⟨sm, hsm, by simp [huri, hrs, hcs, hre, hce, hd]⟩

lemma toTsSourceDiags_singleton (error : Diagnostic) (uri : String)
    (sourceMaps : List (SourceMap TsMappingData)) :
    toTsSourceDiags [error] uri sourceMaps =
      if (toTsSourceDiagsFull error uri sourceMaps).isEmpty then
        toTsSourceDiagsPatched error uri sourceMaps
      else toTsSourceDiagsFull error uri sourceMaps := by
  simp [toTsSourceDiags]

lemma toSourceDiags_singleton_eq_nil_iff (error : Diagnostic) (uri : String)
    (sourceMaps : List (SourceMap D)) :
    toSourceDiags [error] uri sourceMaps = [] ↔
      ∀ sm ∈ sourceMaps, sm.mappedDocumentUri = uri →
        sm.getSourceRange error.range.start error.range.endPos = none := by
  simp only [toSourceDiags, List.flatMap_cons, List.flatMap_nil, List.append_nil,
    List.filterMap_eq_nil_iff]
  constructor
  · intro h sm hsm huri
    have := h sm hsm
    simp only [huri, if_true, Option.map_eq_none'] at this
    exact this
  · intro h sm hsm
    by_cases huri : sm.mappedDocumentUri = uri
    · simp [huri, h sm hsm huri]
    · simp [huri]

/-- Style diagnostic used by the C2 counterexample. -/
def cssDiag0 : Diagnostic :=
  { range := ⟨0, 2⟩, message := "m", severity := some 1 }

/-- Source map whose only segment carries no capability at all (in
particular not `diagnostic`), used by the C2 counterexample. -/
def cssNoCapMap : SourceMap TsMappingData :=
  { mappedDocumentUri := "virtual.css"
    mappings := [{ data := ⟨{}⟩, sourceRange := ⟨100, 110⟩, mappedRange := ⟨0, 10⟩ }] }

/-- Style document entry feeding `cssDiag0` into the styles producer. -/
def cssStyleEntry0 : StyleDocEntry :=
  { uri := "virtual.css", serviceAvailable := true, hasStylesheet := true,
    ignore := none, errs := [cssDiag0] }

/-- C2: counterexample to the claim as stated. The claim says every
producer's diagnostics are remapped using only segments carrying the
`diagnostic` capability and are dropped when no such segment is found; but
the styles producer remaps through `toSourceDiags`, which checks no
capability: here the only segment's capability set is all-false, yet the
diagnostic is emitted, remapped to `[100,102)`. -/
theorem C2_counterexample :
    (cssNoCapMap.mappings.map fun m => m.data.capabilities.diagnostic) = [false]
    ∧ useStylesValidation [cssStyleEntry0] [cssNoCapMap]
      = [{ range := ⟨100, 102⟩, message := "m", severity := some 1 }] := by
  decide

/-- C2 (amended): TS-layer diagnostics (script and template-script
producers, remapped via `toTsSourceDiags`) use only `diagnostic`-capable
segments — full-range containment first, and when no map's full-range
lookup lands in a diagnostic-capable segment, stitched start/end point
lookups, each requiring the capability; when those too fail in every map
the diagnostic is dropped. Style and template diagnostics (remapped via
`toSourceDiags`) use a plain full-range lookup with no capability filter
and no point-lookup fallback, and are dropped exactly when no matching map
covers the full range. -/
theorem C2_remap_amended :
    (∀ (error : Diagnostic) (uri : String)
        (sourceMaps : List (SourceMap TsMappingData)) (d : Diagnostic),
        d ∈ toTsSourceDiags [error] uri sourceMaps →
        (∃ sm ∈ sourceMaps, fullRemapsTo sm uri error d) ∨
        ((∀ sm ∈ sourceMaps, ∀ d', ¬ fullRemapsTo sm uri error d') ∧
          ∃ sm ∈ sourceMaps, stitchRemapsTo sm uri error d)) ∧
    (∀ (error : Diagnostic) (uri : String)
        (sourceMaps : List (SourceMap TsMappingData)),
        (∀ sm ∈ sourceMaps, ∀ d', ¬ fullRemapsTo sm uri error d') →
        (∀ sm ∈ sourceMaps, ∀ d', ¬ stitchRemapsTo sm uri error d') →
        toTsSourceDiags [error] uri sourceMaps = []) ∧
    (∀ (error : Diagnostic) (uri : String)
        (sourceMaps : List (SourceMap TsMappingData)),
        toSourceDiags [error] uri sourceMaps = [] ↔
          ∀ sm ∈ sourceMaps, sm.mappedDocumentUri = uri →
            sm.getSourceRange error.range.start error.range.endPos = none) := by
  refine ⟨?_, ?_, ?_⟩
  · intro error uri sourceMaps d hd
    rw [toTsSourceDiags_singleton] at hd
    by_cases hfull : (toTsSourceDiagsFull error uri sourceMaps).isEmpty
    · rw [if_pos hfull] at hd
      refine Or.inr ⟨?_, mem_toTsSourceDiagsPatched.mp hd⟩
      intro sm hsm d' hd'
      have : d' ∈ toTsSourceDiagsFull error uri sourceMaps :=
        mem_toTsSourceDiagsFull.mpr ⟨sm, hsm, hd'⟩
      rw [List.isEmpty_iff] at hfull
      simp [hfull] at this
    · rw [if_neg hfull] at hd
      exact Or.inl (mem_toTsSourceDiagsFull.mp hd)
  · intro error uri sourceMaps hnofull hnostitch
    have hfull : toTsSourceDiagsFull error uri sourceMaps = [] := by
      rw [List.eq_nil_iff_forall_not_mem]
      intro d hd
      obtain ⟨sm, hsm, h⟩ := mem_toTsSourceDiagsFull.mp hd
      exact hnofull sm hsm d h
    have hpatched : toTsSourceDiagsPatched error uri sourceMaps = [] := by
      rw [List.eq_nil_iff_forall_not_mem]
      intro d hd
      obtain ⟨sm, hsm, h⟩ := mem_toTsSourceDiagsPatched.mp hd
      exact hnostitch sm hsm d h
    rw [toTsSourceDiags_singleton, hfull, hpatched]
    simp
  · intro error uri sourceMaps
    exact toSourceDiags_singleton_eq_nil_iff error uri sourceMaps

/-- Witness for C2: the amended theorem applied at a concrete input — a
diagnostic remapped against a single map whose mapped document does not
match, so both lookup paths fail and the diagnostic is dropped. -/
theorem C2_remap_amended_witness :
    toTsSourceDiags [cssDiag0] "u" [cssNoCapMap] = [] :=
  C2_remap_amended.2.1 cssDiag0 "u" [cssNoCapMap]
    (by
      intro sm hsm d' h
      simp only [List.mem_singleton] at hsm
      subst hsm
      exact absurd h.1 (by decide))
    (by
      intro sm hsm d' h
      simp only [List.mem_singleton] at hsm
      subst hsm
      exact absurd h.1 (by decide))

/-- C8: for the source `<script setup>ref: x = ref(1)\nfn(x)\nfn($x)\n</script>`
— a label-based auto-unwrap declaration whose bound name is later used once
bare and once with the `$` sigil — the ref-sugar toggle command applied
twice (desugar to `const x = ref(ref(1))` with `x.value`/`x` usages, then
resugar) reproduces the original text byte for byte. -/
theorem C8_ref_sugar_toggle_identity :
    refSugarDoc1
      = "<script setup>const x = ref(ref(1))\nfn(x.value)\nfn(x)\n</script>".toList
    ∧ applyTextEdits refSugarDoc1
        (useRefSugarEdits refSugarDoc1 14 54 [refSugarCall1] refSugarFindRefs1
          vueDocUri)
      = refSugarDoc0 := by
  constructor
  · decide
  · decide

/-- C5: a diagnostic is in the teleport-relocated output exactly when some
template-script-layer diagnostic spans a setup-returned name, some teleport
segment containing its range is not flagged `isAdditionalReference`, and
the TS definition lookup at the teleported position lands in the generated
script document; the relocated diagnostic then carries the definition's
selection range (the declaration site), not the template usage range. In
particular every teleport entry flagged `isAdditionalReference` is skipped. -/
theorem C5_teleport_relocation :
    ∀ (errors_1 : List Diagnostic) (templateDocGetText : TextRange → String)
      (setupReturns : List String) (teleport : SourceMap TeleportMappingData)
      (findDefinition : Nat → List DefinitionLink) (scriptDocUri : String)
      (d : Diagnostic),
      d ∈ templateScriptTeleportDiags errors_1 templateDocGetText setupReturns
          teleport findDefinition scriptDocUri ↔
        ∃ diag ∈ errors_1,
          setupReturns.contains (templateDocGetText diag.range) = true ∧
          ∃ pr ∈ teleport.getMappedRanges diag.range.start diag.range.endPos,
            pr.data.isAdditionalReference = false ∧
            ∃ defn ∈ findDefinition pr.start,
              defn.targetUri = scriptDocUri ∧
              d = { diag with range := defn.targetSelectionRange } := by
  intro errors_1 templateDocGetText setupReturns teleport findDefinition scriptDocUri d
  constructor
  · intro hd
    simp only [templateScriptTeleportDiags, List.mem_flatMap] at hd
    obtain ⟨diag, hdiag, hd⟩ := hd
    by_cases hc : setupReturns.contains (templateDocGetText diag.range)
    · rw [if_pos hc] at hd
      simp only [List.mem_flatMap] at hd
      obtain ⟨pr, hpr, hd⟩ := hd
      by_cases hadd : pr.data.isAdditionalReference
      · simp [hadd] at hd
      · rw [if_neg hadd] at hd
        simp only [List.mem_filterMap] at hd
        obtain ⟨defn, hdefn, hd⟩ := hd
        by_cases huri : defn.targetUri = scriptDocUri
        · rw [if_pos huri] at hd
          simp only [Option.some.injEq] at hd
          exact ⟨diag, hdiag, hc, pr, hpr, Bool.eq_false_iff.mpr hadd, defn,
            hdefn, huri, hd.symm⟩
        · simp [huri] at hd
    · rw [if_neg hc] at hd
      exact absurd hd (List.not_mem_nil d)
  · rintro ⟨diag, hdiag, hc, pr, hpr, hadd, defn, hdefn, huri, hd⟩
    simp only [templateScriptTeleportDiags, List.mem_flatMap]
    refine ⟨diag, hdiag, ?_⟩
    rw [if_pos hc]
    simp only [List.mem_flatMap]
    refine ⟨pr, hpr, ?_⟩
    rw [if_neg (by simp [hadd])]
    simp only [List.mem_filterMap]
    exact ⟨defn, hdefn, by simp [huri, hd]⟩

/-- Conjunction of the five `eqSet` checks of `updateTemplateScript`: each
recomputed name list, compared as a set against the stored snapshot. -/
def allNameSetsEq (data : TemplateScriptData)
    (context components props setupReturns globalEls : List CompletionItemData) :
    Bool :=
  eqSet (context.map (fun entry => entry.name)) data.context
    && eqSet (components.map (fun entry => entry.name)) data.components
    && eqSet (props.map (fun entry => entry.name)) data.props
    && eqSet (setupReturns.map (fun entry => entry.name)) data.setupReturns
    && eqSet (globalEls.map (fun entry => entry.name)) data.htmlElements

/-- C6: `updateTemplateScript` returns `false` exactly when the script
engine's project-version token equals the stored one or every recomputed
name list is set-equal to the stored snapshot; in either `false` case the
five name sets are untouched and the template script is not regenerated,
and in the `true` case the recomputed name lists are stored and the
template script is regenerated. -/
theorem C6_updateTemplateScript_gate :
    ∀ (data : TemplateScriptData) (hostProjectVersion : Option String)
      (context components props setupReturns globalEls : List CompletionItemData)
      (r : UpdateTemplateScriptResult),
      updateTemplateScript data hostProjectVersion context components props
          setupReturns globalEls = r →
      (r.changed = false ↔
        data.projectVersion = hostProjectVersion ∨
          allNameSetsEq data context components props setupReturns globalEls = true) ∧
      (r.changed = false →
        r.regenerated = false ∧ r.data.context = data.context ∧
        r.data.components = data.components ∧ r.data.props = data.props ∧
        r.data.setupReturns = data.setupReturns ∧
        r.data.htmlElements = data.htmlElements) ∧
      (r.changed = true →
        r.regenerated = true ∧
        r.data.context = context.map (fun entry => entry.name) ∧
        r.data.components = components.map (fun entry => entry.name) ∧
        r.data.props = props.map (fun entry => entry.name) ∧
        r.data.setupReturns = setupReturns.map (fun entry => entry.name) ∧
        r.data.htmlElements = globalEls.map (fun entry => entry.name) ∧
        r.data.projectVersion = hostProjectVersion) := by
  intro data hostProjectVersion context components props setupReturns globalEls r hr
  subst hr
  by_cases h1 : data.projectVersion = hostProjectVersion
  · simp [updateTemplateScript, h1]
  · by_cases h2 : allNameSetsEq data context components props setupReturns globalEls
    · have h2' := h2
      simp only [allNameSetsEq, Bool.and_eq_true] at h2'
      simp [updateTemplateScript, h1, h2, h2'.1.1.1.1, h2'.1.1.1.2, h2'.1.1.2,
        h2'.1.2, h2'.2]
    · have h2' : ¬ (eqSet (context.map fun entry => entry.name) data.context
          && eqSet (components.map fun entry => entry.name) data.components
          && eqSet (props.map fun entry => entry.name) data.props
          && eqSet (setupReturns.map fun entry => entry.name) data.setupReturns
          && eqSet (globalEls.map fun entry => entry.name) data.htmlElements)
            = true := h2
      simp only [updateTemplateScript, h1, if_false]
      rw [if_neg h2']
      simp [allNameSetsEq, h2']

/-- Witness for C6: a concrete invocation whose project-version token is
fresh and whose recomputed component list differs, so the snapshot is
replaced, the template script regenerated and `true` returned. -/
theorem C6_updateTemplateScript_gate_witness :
    (updateTemplateScript
        { projectVersion := none, context := [], components := [], props := [],
          setupReturns := [], htmlElements := [], componentItems := [],
          htmlElementItems := [] }
        (some "1") [] [⟨"Comp"⟩] [] [] []).changed = true
    ∧ (updateTemplateScript
        { projectVersion := none, context := [], components := [], props := [],
          setupReturns := [], htmlElements := [], componentItems := [],
          htmlElementItems := [] }
        (some "1") [] [⟨"Comp"⟩] [] [] []).data.components = ["Comp"] := by
  have h := C6_updateTemplateScript_gate
    { projectVersion := none, context := [], components := [], props := [],
      setupReturns := [], htmlElements := [], componentItems := [],
      htmlElementItems := [] }
    (some "1") [] [⟨"Comp"⟩] [] [] [] _ rfl
  have hchanged : (updateTemplateScript
      { projectVersion := none, context := [], components := [], props := [],
        setupReturns := [], htmlElements := [], componentItems := [],
        htmlElementItems := [] }
      (some "1") [] [⟨"Comp"⟩] [] [] []).changed = true := by decide
  exact ⟨hchanged, ((h.2.2 hchanged).2.2.1).trans (by decide)⟩

/-- C7: each flag returned by `update` is true exactly when the
corresponding generated document's version after the update differs from
its version before; and a re-run whose generated text is identical to the
current document's text leaves the version unchanged, so the flag is
false. -/
theorem C7_update_version_flags :
    ∀ (scriptDocBefore templateScriptDocBefore : Option IVirtualDocument)
      (newScriptGenText newTemplateScriptGenText : Option String)
      (r : SourceFileUpdateResult),
      sourceFileUpdate scriptDocBefore templateScriptDocBefore newScriptGenText
          newTemplateScriptGenText = r →
      (r.scriptUpdated = true ↔
        scriptDocBefore.map (fun d => d.version)
          ≠ r.scriptDoc.map (fun d => d.version)) ∧
      (r.templateScriptUpdated = true ↔
        templateScriptDocBefore.map (fun d => d.version)
          ≠ r.templateScriptDoc.map (fun d => d.version)) ∧
      (∀ d, scriptDocBefore = some d → newScriptGenText = some d.text →
        r.scriptUpdated = false) ∧
      (∀ d, templateScriptDocBefore = some d →
        newTemplateScriptGenText = some d.text →
        r.templateScriptUpdated = false) := by
  intro scriptDocBefore templateScriptDocBefore newScriptGenText
    newTemplateScriptGenText r hr
  subst hr
  refine ⟨?_, ?_, ?_, ?_⟩
  · simp [sourceFileUpdate, bne_iff_ne]
  · simp [sourceFileUpdate, bne_iff_ne]
  · intro d hd ht
    subst hd ht
    simp [sourceFileUpdate, regenerate]
  · intro d hd ht
    subst hd ht
    simp [sourceFileUpdate, regenerate]

/-- Witness for C7: a concrete update in which the script generator
reproduces the same text (flag false, version kept) while the
template-script generator produces new text (flag true). -/
theorem C7_update_version_flags_witness :
    (sourceFileUpdate (some ⟨"a", 3⟩) (some ⟨"t", 5⟩) (some "a") (some "t2")).scriptUpdated
      = false
    ∧ (sourceFileUpdate (some ⟨"a", 3⟩) (some ⟨"t", 5⟩) (some "a") (some "t2")).templateScriptUpdated
      = true := by
  have h := C7_update_version_flags (some ⟨"a", 3⟩) (some ⟨"t", 5⟩) (some "a")
    (some "t2") _ rfl
  refine ⟨h.2.2.1 ⟨"a", 3⟩ rfl rfl, h.2.1.mpr ?_⟩
  decide

lemma setIgnoreAt_getElem?_self :
    ∀ (l : List SfcBlock) (i : Nat) (b : SfcBlock), l[i]? = some b →
      (setIgnoreAt l i)[i]? = some { b with ignore := true } := by
  intro l
  induction l with
  | nil => intro i b h; simp at h
  | cons hd tl ih =>
    intro i b h
    cases i with
    | zero =>
      simp only [List.getElem?_cons_zero, Option.some.injEq] at h
      subst h
      simp [setIgnoreAt]
    | succ k =>
      simp only [List.getElem?_cons_succ] at h
      simpa [setIgnoreAt] using ih k b h

lemma setIgnoreAt_getElem?_ne :
    ∀ (l : List SfcBlock) (i j : Nat), j ≠ i →
      (setIgnoreAt l i)[j]? = l[j]? := by
  intro l
  induction l with
  | nil => intro i j _; simp [setIgnoreAt]
  | cons hd tl ih =>
    intro i j hne
    cases i with
    | zero =>
      cases j with
      | zero => exact absurd rfl hne
      | succ k => simp [setIgnoreAt]
    | succ m =>
      cases j with
      | zero => simp [setIgnoreAt]
      | succ k =>
        simp only [setIgnoreAt, List.getElem?_cons_succ]
        exact ih m k (fun h => hne (by omega))

lemma head?_insertionSort_enumBlock {l : List (Nat × SfcBlock)} {hd : Nat × SfcBlock}
    (hb : (l.insertionSort enumBlockLe).head? = some hd) :
    hd ∈ l ∧ ∀ q ∈ l, hd.2.start ≤ q.2.start := by
  have hperm := List.perm_insertionSort enumBlockLe l
  have hmem : hd ∈ l := hperm.mem_iff.mp (List.mem_of_mem_head? hb)
  refine ⟨hmem, ?_⟩
  intro q hq
  have hsorted := List.sorted_insertionSort enumBlockLe l
  have hq' : q ∈ l.insertionSort enumBlockLe := hperm.mem_iff.mpr hq
  cases hml : l.insertionSort enumBlockLe with
  | nil => rw [hml] at hb; simp at hb
  | cons x tl =>
    rw [hml] at hb hq' hsorted
    simp only [List.head?_cons, Option.some.injEq] at hb
    subst hb
    rw [List.mem_cons] at hq'
    rcases hq' with h | h
    · subst h; exact Nat.le_refl _
    · exact List.rel_of_pairwise_cons hsorted h

/-- Indices with the same element in a list of blocks with pairwise
distinct start offsets coincide. -/
lemma getElem?_inj_of_distinct_starts {blocks : List SfcBlock}
    (hnodup : blocks.Pairwise (fun a b => a.start ≠ b.start)) {i j : Nat}
    {b : SfcBlock} (hi : blocks[i]? = some b) (hj : blocks[j]? = some b) :
    i = j := by
  by_contra hne
  obtain ⟨hi', hbi⟩ := List.getElem?_eq_some_iff.mp hi
  obtain ⟨hj', hbj⟩ := List.getElem?_eq_some_iff.mp hj
  rw [List.pairwise_iff_getElem] at hnodup
  rcases Nat.lt_or_ge i j with h | h
  · exact hnodup i j hi' hj' h (by rw [hbi, hbj])
  · have h' : j < i := by omega
    exact hnodup j i hj' hi' h' (by rw [hbi, hbj])

/-- C9: for a top-level comment carrying the `@vue-ignore` marker, exactly
the block whose start offset is minimal among blocks starting after the
comment is tagged with the ignore attribute; every other block is left
untouched; a marker with no following block, or a comment without the
marker, tags nothing. Block start offsets are assumed pairwise distinct
(blocks occupy disjoint byte ranges). -/
theorem C9_ignore_marker_tags_next_block :
    ∀ (blocks : List SfcBlock) (c : CommentNode),
      blocks.Pairwise (fun a b => a.start ≠ b.start) →
      (hasVueIgnore c.text = false → applyIgnoreComment blocks c = blocks) ∧
      (hasVueIgnore c.text = true → (∀ b ∈ blocks, ¬ c.start < b.start) →
        applyIgnoreComment blocks c = blocks) ∧
      (hasVueIgnore c.text = true →
        ∀ (i : Nat) (b : SfcBlock), blocks[i]? = some b → c.start < b.start →
        (∀ b' ∈ blocks, c.start < b'.start → b.start ≤ b'.start) →
        applyIgnoreComment blocks c = setIgnoreAt blocks i ∧
        (applyIgnoreComment blocks c)[i]? = some { b with ignore := true } ∧
        ∀ j, j ≠ i → (applyIgnoreComment blocks c)[j]? = blocks[j]?) := by
  intro blocks c hnodup
  refine ⟨?_, ?_, ?_⟩
  · intro hm
    simp [applyIgnoreComment, hm]
  · intro hm hnone
    have hfil : blocks.enum.filter (fun p => decide (c.start < p.2.start)) = [] := by
      rw [List.filter_eq_nil_iff]
      intro p hp
      have hpmem : p.2 ∈ blocks :=
        List.getElem?_mem (List.mem_enum_iff_getElem?.mp hp)
      simpa using hnone p.2 hpmem
    simp [applyIgnoreComment, hm, hfil, List.insertionSort]
  · intro hm i b hib hafter hmin
    have hienum : (i, b) ∈ blocks.enum := List.mem_enum_iff_getElem?.mpr hib
    have hifil : (i, b) ∈ blocks.enum.filter (fun p => decide (c.start < p.2.start)) :=
      List.mem_filter.mpr ⟨hienum, by simpa using hafter⟩
    have hne : (blocks.enum.filter
        (fun p => decide (c.start < p.2.start))).insertionSort enumBlockLe ≠ [] := by
      intro hnil
      have hmemsort := (List.perm_insertionSort enumBlockLe
        (blocks.enum.filter (fun p => decide (c.start < p.2.start)))).mem_iff.mpr hifil
      rw [hnil] at hmemsort
      exact absurd hmemsort (List.not_mem_nil _)
    obtain ⟨hd, tl', hml⟩ : ∃ hd tl',
        (blocks.enum.filter (fun p => decide (c.start < p.2.start))).insertionSort
          enumBlockLe = hd :: tl' := by
      cases h : (blocks.enum.filter
          (fun p => decide (c.start < p.2.start))).insertionSort enumBlockLe with
      | nil => exact absurd h hne
      | cons x t => exact ⟨x, t, rfl⟩
    have hhd : ((blocks.enum.filter
        (fun p => decide (c.start < p.2.start))).insertionSort enumBlockLe).head?
        = some hd := by
      rw [hml]; rfl
    obtain ⟨hdmem, hdmin⟩ := head?_insertionSort_enumBlock hhd
    have hdfil := List.mem_filter.mp hdmem
    have hdafter : c.start < hd.2.start := by simpa using hdfil.2
    have hdget : blocks[hd.1]? = some hd.2 := List.mem_enum_iff_getElem?.mp hdfil.1
    have hdinblocks : hd.2 ∈ blocks := List.getElem?_mem hdget
    have hstarts : hd.2.start = b.start :=
      Nat.le_antisymm (hdmin (i, b) hifil) (hmin hd.2 hdinblocks hdafter)
    have hdb : hd.2 = b := by
      by_contra hneq
      rw [List.pairwise_iff_getElem] at hnodup
      obtain ⟨hi', hbi⟩ := List.getElem?_eq_some_iff.mp hib
      obtain ⟨hh', hbh⟩ := List.getElem?_eq_some_iff.mp hdget
      rcases Nat.lt_or_ge hd.1 i with h | h
      · exact hnodup hd.1 i hh' hi' h (by rw [hbh, hbi, hstarts])
      · have hne2 : hd.1 ≠ i := by
          intro heq
          rw [heq] at hdget
          rw [hib] at hdget
          injection hdget with h2
          exact hneq h2.symm
        have h' : i < hd.1 := by omega
        exact hnodup i hd.1 hi' hh' h' (by rw [hbi, hbh, hstarts])
    have hdget' : blocks[hd.1]? = some b := by rw [← hdb]; exact hdget
    have hidx : hd.1 = i := getElem?_inj_of_distinct_starts hnodup hdget' hib
    have happly : applyIgnoreComment blocks c = setIgnoreAt blocks i := by
      simp only [applyIgnoreComment, hm, if_true, hhd, hidx]
    refine ⟨happly, ?_, ?_⟩
    · rw [happly]
      exact setIgnoreAt_getElem?_self blocks i b hib
    · intro j hj
      rw [happly]
      exact setIgnoreAt_getElem?_ne blocks i j hj

/-- Witness for C9: a marker comment at offset 5 with blocks starting at 3,
20 and 40 tags exactly the block starting at 20 (list index 1). -/
theorem C9_ignore_marker_tags_next_block_witness :
    applyIgnoreComment [⟨3, false⟩, ⟨20, false⟩, ⟨40, false⟩]
        ⟨5, "x @vue-ignore y".toList⟩
      = [⟨3, false⟩, ⟨20, true⟩, ⟨40, false⟩] := by
  have h := (C9_ignore_marker_tags_next_block
    [⟨3, false⟩, ⟨20, false⟩, ⟨40, false⟩] ⟨5, "x @vue-ignore y".toList⟩
    (by decide)).2.2 (by decide) 1 ⟨20, false⟩ (by decide) (by decide)
    (by decide)
  rw [h.1]
  decide

lemma filterMap_skip_ignored {β : Type} (F : StyleDocEntry → Option β)
    (hF : ∀ d, truthy d.ignore = true → F d = none) :
    ∀ documents : List StyleDocEntry,
      documents.filterMap F
        = (documents.filter (fun d => !(truthy d.ignore))).filterMap F := by
  intro documents
  induction documents with
  | nil => rfl
  | cons d rest ih =>
    by_cases hig : truthy d.ignore = true
    · have h1 : F d = none := hF d hig
      simp [List.filterMap_cons, h1, List.filter_cons, hig, ih]
    · cases hFd : F d with
      | none => simp [List.filterMap_cons, hFd, List.filter_cons, hig, ih]
      | some b => simp [List.filterMap_cons, hFd, List.filter_cons, hig, ih]

/-- C10: a section tagged `ignore = true` contributes no diagnostics —
template validation and the template-script passes (whose ignore input is
`descriptor.template?.ignore`) return empty when the template is ignored;
the script type passes and the script-block-missing validation (whose
ignore input is `descriptor.script?.ignore || descriptor.scriptSetup?.ignore`)
return empty when either script section is ignored; and style validation
skips ignored style documents, so its output equals the output on the
non-ignored documents alone. -/
theorem C10_ignored_sections_silent :
    (∀ (templateRawDocUri : Option String) (htmlErrors pugErrors : List Diagnostic)
        (htmlSourceMaps pugSourceMaps : List (SourceMap TsMappingData)),
        useTemplateValidation (some true) templateRawDocUri htmlErrors pugErrors
          htmlSourceMaps pugSourceMaps = []) ∧
    (∀ (templateGenDocUri scriptGenDocUri : Option String)
        (errors_1 : List Diagnostic) (templateDocGetText : TextRange → String)
        (setupReturns : List String)
        (teleport : Option (SourceMap TeleportMappingData))
        (findDefinition : Nat → List DefinitionLink)
        (tsSourceMaps : List (SourceMap TsMappingData)),
        useTemplateScriptValidation (some true) templateGenDocUri scriptGenDocUri
          errors_1 templateDocGetText setupReturns teleport findDefinition
          tsSourceMaps = []) ∧
    (∀ (s ss : Option Bool) (document : Option String)
        (rawErrors : List Diagnostic)
        (tsSourceMaps : List (SourceMap TsMappingData)) (onlyUnusedCheck : Bool),
        s = some true ∨ ss = some true →
        useScriptValidation (orTruthy s ss) document rawErrors tsSourceMaps
          onlyUnusedCheck = []) ∧
    (∀ (s ss : Option Bool) (scriptGenDocExists docKnownToTs : Bool)
        (script scriptSetup : Option TextRange),
        s = some true ∨ ss = some true →
        useScriptExistValidation (orTruthy s ss) scriptGenDocExists docKnownToTs
          script scriptSetup = []) ∧
    (∀ (documents : List StyleDocEntry)
        (styleSourceMaps : List (SourceMap TsMappingData)),
        useStylesValidation documents styleSourceMaps
          = useStylesValidation
              (documents.filter (fun d => !(truthy d.ignore))) styleSourceMaps) := by
  have horTruthy : ∀ (s ss : Option Bool), s = some true ∨ ss = some true →
      truthy (orTruthy s ss) = true := by
    intro s ss h
    rcases h with h | h
    · subst h
      simp [orTruthy, truthy]
    · subst h
      unfold orTruthy truthy
      by_cases hs : s.getD false = true
      · simp [hs]
      · simp [hs]
  refine ⟨?_, ?_, ?_, ?_, ?_⟩
  · intro templateRawDocUri htmlErrors pugErrors htmlSourceMaps pugSourceMaps
    simp [useTemplateValidation, truthy]
  · intro templateGenDocUri scriptGenDocUri errors_1 templateDocGetText
      setupReturns teleport findDefinition tsSourceMaps
    simp [useTemplateScriptValidation, truthy]
  · intro s ss document rawErrors tsSourceMaps onlyUnusedCheck h
    simp [useScriptValidation, horTruthy s ss h]
  · intro s ss scriptGenDocExists docKnownToTs script scriptSetup h
    simp [useScriptExistValidation, horTruthy s ss h]
  · intro documents styleSourceMaps
    simp only [useStylesValidation]
    rw [filterMap_skip_ignored _ (fun d h => by simp [h]) documents]

/-- Witness for C10: a concrete run in which the script section is ignored
— the semantic script pass returns nothing. -/
theorem C10_ignored_sections_silent_witness :
    useScriptValidation (orTruthy (some true) none) (some "main.ts")
      [{ range := ⟨0, 1⟩, message := "err", severity := some 1 }] [] false = [] :=
  C10_ignored_sections_silent.2.2.1 (some true) none (some "main.ts")
    [{ range := ⟨0, 1⟩, message := "err", severity := some 1 }] [] false
    (Or.inl rfl)

lemma dedupeGo_key_not_seen :
    ∀ (l : List Diagnostic) (seen : List (TextRange × String × Option Nat))
      (d : Diagnostic), d ∈ dedupeWithDiagnosticsGo l seen → dedupeKey d ∉ seen := by
  intro l
  induction l with
  | nil => intro seen d h; simp [dedupeWithDiagnosticsGo] at h
  | cons hd tl ih =>
    intro seen d hm
    by_cases hs : dedupeKey hd ∈ seen
    · rw [dedupeWithDiagnosticsGo, if_pos hs] at hm
      exact ih seen d hm
    · rw [dedupeWithDiagnosticsGo, if_neg hs] at hm
      rcases List.mem_cons.mp hm with h | h
      · subst h; exact hs
      · have h2 := ih _ d h
        intro hcon
        exact h2 (List.mem_cons_of_mem _ hcon)

lemma dedupeGo_pairwise :
    ∀ (l : List Diagnostic) (seen : List (TextRange × String × Option Nat)),
      (dedupeWithDiagnosticsGo l seen).Pairwise
        (fun a b => dedupeKey a ≠ dedupeKey b) := by
  intro l
  induction l with
  | nil => intro seen; simp [dedupeWithDiagnosticsGo]
  | cons hd tl ih =>
    intro seen
    by_cases hs : dedupeKey hd ∈ seen
    · rw [dedupeWithDiagnosticsGo, if_pos hs]
      exact ih seen
    · rw [dedupeWithDiagnosticsGo, if_neg hs]
      refine List.Pairwise.cons ?_ (ih _)
      intro b hb
      have h2 := dedupeGo_key_not_seen tl _ b hb
      intro hcon
      exact h2 (by rw [← hcon]; exact List.mem_cons_self _ _)

lemma dedupeGo_rep :
    ∀ (l : List Diagnostic) (seen : List (TextRange × String × Option Nat))
      (d : Diagnostic), d ∈ l →
      dedupeKey d ∈ seen ∨
        ∃ d' ∈ dedupeWithDiagnosticsGo l seen, dedupeKey d' = dedupeKey d := by
  intro l
  induction l with
  | nil => intro seen d h; simp at h
  | cons hd tl ih =>
    intro seen d h
    by_cases hs : dedupeKey hd ∈ seen
    · rw [dedupeWithDiagnosticsGo, if_pos hs]
      rcases List.mem_cons.mp h with h | h
      · subst h; exact Or.inl hs
      · exact ih seen d h
    · rw [dedupeWithDiagnosticsGo, if_neg hs]
      rcases List.mem_cons.mp h with h | h
      · exact Or.inr ⟨hd, List.mem_cons_self _ _, by rw [h]⟩
      · rcases ih (dedupeKey hd :: seen) d h with hin | ⟨d', hd', hk⟩
        · rcases List.mem_cons.mp hin with heq | hin2
          · exact Or.inr ⟨hd, List.mem_cons_self _ _, heq.symm⟩
          · exact Or.inl hin2
        · exact Or.inr ⟨d', List.mem_cons_of_mem _ hd', hk⟩

lemma dedupe_rep (l : List Diagnostic) (d : Diagnostic) (h : d ∈ l) :
    ∃ d' ∈ dedupeWithDiagnostics l, dedupeKey d' = dedupeKey d := by
  rcases dedupeGo_rep l [] d h with hin | h2
  · simp at hin
  · exact h2

lemma dedupeGo_subset :
    ∀ (l : List Diagnostic) (seen : List (TextRange × String × Option Nat)),
      dedupeWithDiagnosticsGo l seen ⊆ l := by
  intro l
  induction l with
  | nil => intro seen; simp [dedupeWithDiagnosticsGo]
  | cons hd tl ih =>
    intro seen
    by_cases hs : dedupeKey hd ∈ seen
    · rw [dedupeWithDiagnosticsGo, if_pos hs]
      exact List.Subset.trans (ih seen) (List.subset_cons_self _ _)
    · rw [dedupeWithDiagnosticsGo, if_neg hs]
      exact List.cons_subset_cons hd (ih _)

lemma runProducers_length :
    ∀ (all done keep : List DiagProducerState) (isCancel : Nat → Bool)
      (measure : Nat → Nat) (i : Nat),
      (runProducers done all keep isCancel measure i).1.length
        = executedCount isCancel i all.length := by
  intro all
  induction all with
  | nil => intro done keep c m i; simp [runProducers, executedCount]
  | cons p rest ih =>
    intro done keep c m i
    by_cases hc : c i = true
    · simp [runProducers, executedCount, hc]
    · simp [runProducers, executedCount, hc, ih]

lemma runProducers_final_drop :
    ∀ (all done keep : List DiagProducerState) (isCancel : Nat → Bool)
      (measure : Nat → Nat) (i : Nat),
      (runProducers done all keep isCancel measure i).2.drop
          (done.length + executedCount isCancel i all.length)
        = all.drop (executedCount isCancel i all.length) := by
  intro all
  induction all with
  | nil =>
    intro done keep c m i
    simp [runProducers, executedCount, List.drop_length]
  | cons p rest ih =>
    intro done keep c m i
    by_cases hc : c i = true
    · simp [runProducers, executedCount, hc, List.drop_left]
    · simp only [runProducers, executedCount, hc, if_false, Bool.false_eq_true,
        List.drop_succ_cons]
      have h := ih (done ++ [diagStep p (m i)]) keep c m (i + 1)
      simp only [List.length_append, List.length_cons, List.length_nil] at h
      have harith : done.length + (executedCount c (i + 1) rest.length + 1)
          = done.length + (0 + 1) + executedCount c (i + 1) rest.length := by
        omega
      rw [harith]
      exact h

lemma executedCount_false :
    ∀ (n i : Nat), executedCount (fun _ => false) i n = n := by
  intro n
  induction n with
  | zero => intro i; simp [executedCount]
  | succ n ih => intro i; simp [executedCount, ih]

lemma executedCount_first_cancel :
    ∀ (isCancel : Nat → Bool) (n k i : Nat),
      (∀ j, j < k → isCancel (i + j) = false) → isCancel (i + k) = true →
      executedCount isCancel i n = min k n := by
  intro c n
  induction n with
  | zero => intro k i _ _; simp [executedCount]
  | succ n ih =>
    intro k i hbefore hk
    cases k with
    | zero =>
      have h : c i = true := by simpa using hk
      simp [executedCount, h]
    | succ k =>
      have h0 : c i = false := by simpa using hbefore 0 (by omega)
      have hrec := ih k (i + 1)
        (fun j hj => by
          have := hbefore (j + 1) (by omega)
          rw [show i + (j + 1) = i + 1 + j by omega] at this
          exact this)
        (by rw [show i + 1 + k = i + (k + 1) by omega]; exact hk)
      simp only [executedCount, h0, if_false, Bool.false_eq_true, hrec]
      omega

lemma steppedSeg_zero (measure : Nat → Nat) :
    ∀ (l : List DiagProducerState) (i : Nat), steppedSeg measure l i 0 = l := by
  intro l i
  cases l with
  | nil => rfl
  | cons p rest => rfl

lemma runProducers_batch_noCancel :
    ∀ (all done keep : List DiagProducerState) (measure : Nat → Nat) (i j : Nat),
      j < all.length →
      (runProducers done all keep (fun _ => false) measure i).1[j]?
        = some (dedupeWithDiagnostics
            ((((done ++ steppedSeg measure all i (j + 1)) ++ keep).map
              (fun q => q.lastResult)).flatten)) := by
  intro all
  induction all with
  | nil => intro done keep m i j hj; simp at hj
  | cons p rest ih =>
    intro done keep m i j hj
    cases j with
    | zero =>
      simp [runProducers, steppedSeg, steppedSeg_zero]
    | succ j' =>
      have hj' : j' < rest.length := by simpa using hj
      simp only [runProducers, Bool.false_eq_true, if_false, List.getElem?_cons_succ]
      have h := ih (done ++ [diagStep p (m i)]) keep m (i + 1) j' hj'
      rw [h]
      have hlist : (done ++ [diagStep p (m i)]) ++ steppedSeg m rest (i + 1) (j' + 1)
          = done ++ steppedSeg m (p :: rest) i (j' + 1 + 1) := by
        rw [List.append_assoc]
        rfl
      rw [hlist]

lemma runProducers_keep_lastResults :
    ∀ (all done keep keep' : List DiagProducerState) (isCancel : Nat → Bool)
      (measure : Nat → Nat) (i : Nat),
      keep'.map (fun q => q.lastResult) = keep.map (fun q => q.lastResult) →
      runProducers done all keep' isCancel measure i
        = runProducers done all keep isCancel measure i := by
  intro all
  induction all with
  | nil => intro done keep keep' c m i _; rfl
  | cons p rest ih =>
    intro done keep keep' c m i h
    by_cases hc : c i = true
    · simp [runProducers, hc]
    · simp only [runProducers, hc, if_false, Bool.false_eq_true]
      have hb : ((done ++ diagStep p (m i) :: rest) ++ keep').map
            (fun q => q.lastResult)
          = ((done ++ diagStep p (m i) :: rest) ++ keep).map
            (fun q => q.lastResult) := by
        simp [List.map_append, h]
      rw [hb, ih (done ++ [diagStep p (m i)]) keep keep' c m (i + 1) h]

lemma runProducers_batch_holds_keep :
    ∀ (all done keep : List DiagProducerState) (isCancel : Nat → Bool)
      (measure : Nat → Nat) (i : Nat) (batch : List Diagnostic),
      batch ∈ (runProducers done all keep isCancel measure i).1 →
      ∀ d ∈ (keep.map (fun q => q.lastResult)).flatten,
        ∃ d' ∈ batch, dedupeKey d' = dedupeKey d := by
  intro all
  induction all with
  | nil => intro done keep c m i batch hb; simp [runProducers] at hb
  | cons p rest ih =>
    intro done keep c m i batch hb d hd
    by_cases hc : c i = true
    · simp [runProducers, hc] at hb
    · simp only [runProducers, hc, if_false, Bool.false_eq_true] at hb
      rcases List.mem_cons.mp hb with h | h
      · subst h
        apply dedupe_rep
        rw [List.map_append, List.flatten_append]
        exact List.mem_append_right _ hd
      · exact ih (done ++ [diagStep p (m i)]) keep c m (i + 1) batch h d hd

/-- C1: in every diagnostics run, `isCancelled` is polled before each
producer executes; if the `k`-th poll is the first that resolves true, the
run delivers exactly `min k n` batches (one per producer completed before
the cancellation, none after) and the producers from position `min k n` on
are left untouched — no further producer is computed. -/
theorem C1_cancellation_halts :
    ∀ (nonTs scriptTs templateTs : List DiagProducerState)
      (scriptChanged scriptSetupChanged templateChanged withSideEffect : Bool)
      (isCancel : Nat → Bool) (measure : Nat → Nat) (k : Nat)
      (allKeep : List DiagProducerState × List DiagProducerState),
      scheduleProducers nonTs scriptTs templateTs scriptChanged
        scriptSetupChanged templateChanged withSideEffect = allKeep →
      (∀ j, j < k → isCancel j = false) → isCancel k = true →
      (diagnosticsRun nonTs scriptTs templateTs scriptChanged
          scriptSetupChanged templateChanged withSideEffect isCancel
          measure).1.length
        = min k allKeep.1.length ∧
      (diagnosticsRun nonTs scriptTs templateTs scriptChanged
          scriptSetupChanged templateChanged withSideEffect isCancel
          measure).2.drop (min k allKeep.1.length)
        = allKeep.1.drop (min k allKeep.1.length) := by
  intro nonTs scriptTs templateTs scriptChanged scriptSetupChanged
    templateChanged withSideEffect isCancel measure k allKeep hs hb hk
  have hrun : diagnosticsRun nonTs scriptTs templateTs scriptChanged
      scriptSetupChanged templateChanged withSideEffect isCancel measure
      = runProducers [] allKeep.1 allKeep.2 isCancel measure 0 := by
    simp only [diagnosticsRun, hs]
  have he : executedCount isCancel 0 allKeep.1.length
      = min k allKeep.1.length :=
    executedCount_first_cancel isCancel allKeep.1.length k 0
      (fun j hj => by simpa using hb j hj) (by simpa using hk)
  constructor
  · rw [hrun, runProducers_length, he]
  · have h2 := runProducers_final_drop allKeep.1 [] allKeep.2 isCancel measure 0
    rw [he] at h2
    rw [hrun]
    simpa only [List.length_nil, Nat.zero_add] using h2

/-- Witness for C1: with two always-run producers and a callback whose
second poll resolves true, exactly one batch is delivered and the second
producer is never executed. -/
theorem C1_cancellation_halts_witness :
    (diagnosticsRun
        [⟨[⟨⟨1, 2⟩, "a", some 1, none, none, []⟩], [], 0⟩,
         ⟨[⟨⟨3, 4⟩, "b", some 2, none, none, []⟩], [], 0⟩]
        [] [] false false false true (fun j => decide (j = 1))
        (fun _ => 0)).1.length
      = min 1 (scheduleProducers
          [⟨[⟨⟨1, 2⟩, "a", some 1, none, none, []⟩], [], 0⟩,
           ⟨[⟨⟨3, 4⟩, "b", some 2, none, none, []⟩], [], 0⟩]
          [] [] false false false true).1.length
    ∧ (diagnosticsRun
        [⟨[⟨⟨1, 2⟩, "a", some 1, none, none, []⟩], [], 0⟩,
         ⟨[⟨⟨3, 4⟩, "b", some 2, none, none, []⟩], [], 0⟩]
        [] [] false false false true (fun j => decide (j = 1))
        (fun _ => 0)).2.drop
          (min 1 (scheduleProducers
            [⟨[⟨⟨1, 2⟩, "a", some 1, none, none, []⟩], [], 0⟩,
             ⟨[⟨⟨3, 4⟩, "b", some 2, none, none, []⟩], [], 0⟩]
            [] [] false false false true).1.length)
      = (scheduleProducers
          [⟨[⟨⟨1, 2⟩, "a", some 1, none, none, []⟩], [], 0⟩,
           ⟨[⟨⟨3, 4⟩, "b", some 2, none, none, []⟩], [], 0⟩]
          [] [] false false false true).1.drop
          (min 1 (scheduleProducers
            [⟨[⟨⟨1, 2⟩, "a", some 1, none, none, []⟩], [], 0⟩,
             ⟨[⟨⟨3, 4⟩, "b", some 2, none, none, []⟩], [], 0⟩]
            [] [] false false false true).1.length) :=
  C1_cancellation_halts
    [⟨[⟨⟨1, 2⟩, "a", some 1, none, none, []⟩], [], 0⟩,
     ⟨[⟨⟨3, 4⟩, "b", some 2, none, none, []⟩], [], 0⟩]
    [] [] false false false true (fun j => decide (j = 1)) (fun _ => 0) 1 _
    rfl
    (by
      intro j hj
      have h0 : j = 0 := by omega
      subst h0
      decide)
    (by decide)

/-- C3: the always-run group heads the execution list in every schedule;
when the last update changed the script or script-setup content the
script family (cost-sorted) is scheduled before the template-script
family, and when only the template changed the template-script family
comes first; with `withSideEffect = false` the non-triggered family goes
to the held list instead — it is never executed (the run's result depends
on held producers only through their stored `lastResult`) while every
delivered batch still carries a representative of each held diagnostic. -/
theorem C3_family_scheduling :
    ∀ (nonTs scriptTs templateTs : List DiagProducerState)
      (scriptChanged scriptSetupChanged templateChanged withSideEffect : Bool)
      (allKeep : List DiagProducerState × List DiagProducerState),
      scheduleProducers nonTs scriptTs templateTs scriptChanged
        scriptSetupChanged templateChanged withSideEffect = allKeep →
      allKeep.1.take nonTs.length = nonTs ∧
      ((scriptChanged || scriptSetupChanged) = true →
        allKeep.1 = nonTs ++ sortByCost scriptTs
            ++ (if withSideEffect then sortByCost templateTs else [])
        ∧ allKeep.2 = (if withSideEffect then [] else sortByCost templateTs)) ∧
      ((scriptChanged || scriptSetupChanged) = false → templateChanged = true →
        allKeep.1 = nonTs ++ sortByCost templateTs
            ++ (if withSideEffect then sortByCost scriptTs else [])
        ∧ allKeep.2 = (if withSideEffect then [] else sortByCost scriptTs)) ∧
      (∀ (isCancel : Nat → Bool) (measure : Nat → Nat) (batch : List Diagnostic),
        batch ∈ (runProducers [] allKeep.1 allKeep.2 isCancel measure 0).1 →
        ∀ d ∈ (allKeep.2.map (fun q => q.lastResult)).flatten,
          ∃ d' ∈ batch, dedupeKey d' = dedupeKey d) ∧
      (∀ (keep' : List DiagProducerState) (isCancel : Nat → Bool)
          (measure : Nat → Nat),
        keep'.map (fun q => q.lastResult)
            = allKeep.2.map (fun q => q.lastResult) →
        runProducers [] allKeep.1 keep' isCancel measure 0
          = runProducers [] allKeep.1 allKeep.2 isCancel measure 0) := by
  intro nonTs scriptTs templateTs scriptChanged scriptSetupChanged
    templateChanged withSideEffect allKeep hs
  subst hs
  refine ⟨?_, ?_, ?_, ?_, ?_⟩
  · by_cases h1 : (scriptChanged || scriptSetupChanged) = true <;>
      by_cases h2 : templateChanged = true <;>
      by_cases h3 : withSideEffect = true <;>
      simp [scheduleProducers, sortByCost, h1, h2, h3, List.take_left]
  · intro h1
    by_cases h3 : withSideEffect = true <;>
      simp [scheduleProducers, sortByCost, h1, h3]
  · intro h1 h2
    by_cases h3 : withSideEffect = true <;>
      simp [scheduleProducers, sortByCost, h1, h2, h3]
  · intro isCancel measure batch hb d hd
    exact runProducers_batch_holds_keep _ [] _ isCancel measure 0 batch hb d hd
  · intro keep' isCancel measure h
    exact runProducers_keep_lastResults _ [] _ keep' isCancel measure 0 h

/-- Witness for C3: a script-content change with side effects disabled
schedules the always-run group then the script family, and holds the
template-script family. -/
theorem C3_family_scheduling_witness :
    (scheduleProducers
        [⟨[⟨⟨1, 2⟩, "a", some 1, none, none, []⟩], [], 0⟩]
        [⟨[⟨⟨3, 4⟩, "b", some 2, none, none, []⟩], [], 0⟩]
        [⟨[], [⟨⟨5, 6⟩, "c", some 2, none, none, []⟩], 0⟩]
        true false false false).1
      = [⟨[⟨⟨1, 2⟩, "a", some 1, none, none, []⟩], [], 0⟩]
        ++ sortByCost [⟨[⟨⟨3, 4⟩, "b", some 2, none, none, []⟩], [], 0⟩]
        ++ (if false then
            sortByCost [⟨[], [⟨⟨5, 6⟩, "c", some 2, none, none, []⟩], 0⟩]
          else [])
    ∧ (scheduleProducers
        [⟨[⟨⟨1, 2⟩, "a", some 1, none, none, []⟩], [], 0⟩]
        [⟨[⟨⟨3, 4⟩, "b", some 2, none, none, []⟩], [], 0⟩]
        [⟨[], [⟨⟨5, 6⟩, "c", some 2, none, none, []⟩], 0⟩]
        true false false false).2
      = (if false then []
          else sortByCost [⟨[], [⟨⟨5, 6⟩, "c", some 2, none, none, []⟩], 0⟩]) :=
  (C3_family_scheduling
    [⟨[⟨⟨1, 2⟩, "a", some 1, none, none, []⟩], [], 0⟩]
    [⟨[⟨⟨3, 4⟩, "b", some 2, none, none, []⟩], [], 0⟩]
    [⟨[], [⟨⟨5, 6⟩, "c", some 2, none, none, []⟩], 0⟩]
    true false false false _ rfl).2.1 (by decide)

/-- C4: with no cancellation, a run over the execution list `all` with held
list `keep` delivers exactly one batch per producer; the batch delivered
after the `j`-th producer completes is the deduplication of the
concatenated most recent results of every producer — the first `j + 1`
producers contribute their fresh value, the not-yet-executed producers and
the held producers contribute their stored previous result. Deduplication
collapses diagnostics sharing the `{range, message, severity}` triple to
exactly one entry (pairwise distinct keys), loses no key, and invents no
diagnostic. -/
theorem C4_incremental_dedupe_stream :
    ∀ (all keep : List DiagProducerState) (measure : Nat → Nat),
      (runProducers [] all keep (fun _ => false) measure 0).1.length
        = all.length ∧
      (∀ j, j < all.length →
        (runProducers [] all keep (fun _ => false) measure 0).1[j]?
          = some (dedupeWithDiagnostics
              (((steppedSeg measure all 0 (j + 1) ++ keep).map
                (fun q => q.lastResult)).flatten))) ∧
      (∀ l : List Diagnostic,
        (dedupeWithDiagnostics l).Pairwise
          (fun a b => dedupeKey a ≠ dedupeKey b)) ∧
      (∀ (l : List Diagnostic) (d : Diagnostic), d ∈ l →
        ∃ d' ∈ dedupeWithDiagnostics l, dedupeKey d' = dedupeKey d) ∧
      (∀ l : List Diagnostic, dedupeWithDiagnostics l ⊆ l) := by
  intro all keep measure
  refine ⟨?_, ?_, ?_, ?_, ?_⟩
  · rw [runProducers_length]
    exact executedCount_false _ _
  · intro j hj
    have h := runProducers_batch_noCancel all [] keep measure 0 j hj
    simpa only [List.nil_append] using h
  · intro l
    exact dedupeGo_pairwise l []
  · intro l d hd
    exact dedupe_rep l d hd
  · intro l
    exact dedupeGo_subset l []

/-- Witness for C4: a one-producer run with one held producer delivers one
batch, and it is the dedupe of the fresh value followed by the held
result. -/
theorem C4_incremental_dedupe_stream_witness :
    (runProducers [] [⟨[⟨⟨1, 2⟩, "a", some 1, none, none, []⟩], [], 0⟩]
        [⟨[], [⟨⟨3, 4⟩, "b", some 2, none, none, []⟩], 0⟩]
        (fun _ => false) (fun _ => 0) 0).1.length
      = [(⟨[⟨⟨1, 2⟩, "a", some 1, none, none, []⟩], [], 0⟩ :
          DiagProducerState)].length
    ∧ (runProducers [] [⟨[⟨⟨1, 2⟩, "a", some 1, none, none, []⟩], [], 0⟩]
        [⟨[], [⟨⟨3, 4⟩, "b", some 2, none, none, []⟩], 0⟩]
        (fun _ => false) (fun _ => 0) 0).1[0]?
      = some (dedupeWithDiagnostics
          (((steppedSeg (fun _ => 0)
              [⟨[⟨⟨1, 2⟩, "a", some 1, none, none, []⟩], [], 0⟩] 0 1
            ++ ([⟨[], [⟨⟨3, 4⟩, "b", some 2, none, none, []⟩], 0⟩] :
              List DiagProducerState)).map
            (fun q => q.lastResult)).flatten)) :=
  ⟨(C4_incremental_dedupe_stream
      [⟨[⟨⟨1, 2⟩, "a", some 1, none, none, []⟩], [], 0⟩]
      [⟨[], [⟨⟨3, 4⟩, "b", some 2, none, none, []⟩], 0⟩] (fun _ => 0)).1,
   (C4_incremental_dedupe_stream
      [⟨[⟨⟨1, 2⟩, "a", some 1, none, none, []⟩], [], 0⟩]
      [⟨[], [⟨⟨3, 4⟩, "b", some 2, none, none, []⟩], 0⟩] (fun _ => 0)).2.1 0
      (by decide)⟩

end Volar
